import Mathlib

/-!
Verification of the network file-sharing server/client (server.cpp, client.cpp).

The wire-level functions (`send_line`/`recv_line`, `xor_in_place`,
`send_file_encrypted`/`recv_file_encrypted`) are embedded over byte streams
modelled as `List Nat` (each element a byte value); the stream passed to a
receive function is the sequence of bytes the peer sends before closing, so
`recv_all` of `k` bytes succeeds exactly when at least `k` bytes remain.
The session layer (`handle_client` and its command loop) is embedded over the
demultiplexed sequence of receive units (control frames and bulk-transfer
byte blocks); the byte-exact fidelity of the framing and bulk sub-protocols
is established separately by the wire-level theorems.
-/

namespace NetFS

/-- The fixed XOR key `0x5A` shared by server and client. -/
def XOR_KEY : Nat := 0x5A

/-- Chunk size of the bulk-transfer loops: 64 KiB. -/
def CHUNK : Nat := 64 * 1024

/-- Embedding of `xor_in_place(buf, n)`: XOR each of the first `n` bytes of
the buffer with `XOR_KEY`, leaving the rest unchanged.  The C++ loop indexes
`buf[i]` for `i < n`, which is meaningful only when `n ≤ buf.size()`; the
model clips at the end of the list. -/
def xor_in_place : List Nat → Nat → List Nat
  | buf, 0 => buf
  | [], _ + 1 => []
  | b :: rest, n + 1 => (b ^^^ XOR_KEY) :: xor_in_place rest n

/-- XOR transform of a whole buffer (pointwise `^^^ XOR_KEY`). -/
def xformBytes (l : List Nat) : List Nat := l.map (fun b => b ^^^ XOR_KEY)

/-- Big-endian 4-byte encoding, the wire image `htonl` produces for a
`uint32_t` value (< `2^32`). -/
def be32 (n : Nat) : List Nat :=
  [n / 2 ^ 24 % 256, n / 2 ^ 16 % 256, n / 2 ^ 8 % 256, n % 256]

/-- Decode a big-endian byte list into a natural number (the `ntohl` /
`be64_to_host` view of the received header bytes). -/
def decodeBE (b : List Nat) : Nat := b.foldl (fun acc x => acc * 256 + x) 0

/-- Big-endian 8-byte encoding, the wire image `host_to_be64` produces for a
`uint64_t` value on a little-endian host (the deployed configuration). -/
def be64 (n : Nat) : List Nat :=
  [n / 2 ^ 56 % 256, n / 2 ^ 48 % 256, n / 2 ^ 40 % 256, n / 2 ^ 32 % 256,
   n / 2 ^ 24 % 256, n / 2 ^ 16 % 256, n / 2 ^ 8 % 256, n % 256]

/-- Embedding of `send_line(fd, s)`: the bytes it puts on the stream.  The
header is `htonl((uint32_t)s.size())` — the length truncated to 32 bits —
followed by all `s.size()` payload bytes. -/
def send_line (s : List Nat) : List Nat := be32 (s.length % 2 ^ 32) ++ s

/-- Embedding of `recv_line(fd, out)`: read a 4-byte header, decode it with
`ntohl` to `n`, then read exactly `n` payload bytes (for `n = 0` no further
read happens and the empty frame is returned).  Returns the frame and the
unconsumed remainder of the stream, or `none` when the stream is exhausted
mid-read. -/
def recv_line (stream : List Nat) : Option (List Nat × List Nat) :=
  if stream.length < 4 then none
  else
    let n := decodeBE (stream.take 4)
    let rest := stream.drop 4
    if rest.length < n then none
    else some (rest.take n, rest.drop n)

/-- The payload bytes `send_file_encrypted` puts on the wire after its header:
each chunk the `ifstream` hands over is XOR-transformed in place and sent; a
read that returns no bytes ends the loop. -/
def send_chunks : List (List Nat) → List Nat
  | [] => []
  | c :: cs => if c.isEmpty then [] else xor_in_place c c.length ++ send_chunks cs

/-- Embedding of `send_file_encrypted` for a file whose `ifstream` delivers
the contents as the chunk list `chunks` (each read returns at most `CHUNK`
bytes): an 8-byte big-endian size header (`tellg`, the total length) followed
by the transformed chunks. -/
def send_file_chunked (chunks : List (List Nat)) : List Nat :=
  be64 chunks.flatten.length ++ send_chunks chunks

/-- The wire image of `send_file_encrypted` for content `content`: the size
header plus the byte-wise transform of the whole content.  This equals
`send_file_chunked` for every chunk schedule the `ifstream` can produce
(proved below), since the transform acts on each byte independently. -/
def send_file_stream (content : List Nat) : List Nat :=
  be64 content.length ++ xformBytes content

/-- Embedding of the receive loop of `recv_file_encrypted`: with `left` bytes
still owed, read `min CHUNK left` bytes, transform them in place, append them
to the destination file, and repeat.  Returns (success, bytes written to the
destination, unconsumed stream).  When `recv_all` fails (short stream) the
loop stops with failure; every chunk already written stays written. -/
def recv_bulk_loop : Nat → List Nat → Bool × List Nat × List Nat
  | 0, stream => (true, [], stream)
  | left + 1, stream =>
    let chunk := min CHUNK (left + 1)
    if stream.length < chunk then (false, [], stream)
    else
      let r := recv_bulk_loop (left + 1 - chunk) (stream.drop chunk)
      (r.1, xor_in_place (stream.take chunk) chunk ++ r.2.1, r.2.2)
termination_by left _ => left + 1
decreasing_by
  all_goals simp [CHUNK]

/-- Embedding of `recv_file_encrypted`: read the 8-byte size header, then run
the chunked receive loop.  The destination file is opened (and truncated)
after the header is read; nothing already written is removed on failure. -/
def recv_file_stream (stream : List Nat) : Bool × List Nat × List Nat :=
  if stream.length < 8 then (false, [], stream)
  else recv_bulk_loop (decodeBE (stream.take 8)) (stream.drop 8)

/-- The whitespace test `std::istream` token extraction uses (`isspace`,
C locale). -/
def wsChar (c : Char) : Bool :=
  c == ' ' || c == '\t' || c == '\n' || c == '\x0b' || c == '\x0c' || c == '\r'

/-- Tokeniser matching repeated `std::istringstream >> std::string`: skip
whitespace, collect each maximal run of non-whitespace.  `acc` holds the
current token's characters in reverse. -/
def tokensAux (acc : List Char) : List Char → List String
  | [] => if acc.isEmpty then [] else [String.mk acc.reverse]
  | c :: cs =>
    if wsChar c then
      if acc.isEmpty then tokensAux [] cs
      else String.mk acc.reverse :: tokensAux [] cs
    else tokensAux (c :: acc) cs

/-- All whitespace-separated tokens of `s`. -/
def tokens (s : String) : List String := tokensAux [] s.data

/-- The `i`-th whitespace-separated token of `s`.  A failed `>>` extraction
leaves the target `std::string` empty (it is cleared first), so a missing
token reads as `""`. -/
def tok (s : String) (i : Nat) : String := (tokens s).getD i ""

/-- Does `pat` occur at the start of `cs`?  Helper for substring search. -/
def startsWithChars : List Char → List Char → Bool
  | [], _ => true
  | _ :: _, [] => false
  | p :: ps, c :: cs => p == c && startsWithChars ps cs

/-- Does `pat` occur anywhere in `cs`?  Models
`std::string::find(pat) != npos`. -/
def hasSubChars (pat : List Char) : List Char → Bool
  | [] => startsWithChars pat []
  | c :: cs => startsWithChars pat (c :: cs) || hasSubChars pat cs

/-- Embedding of `safe_filename`: non-empty and containing neither the
substring `".."` nor the characters `'/'`, `'\'`. -/
def safe_filename (name : String) : Bool :=
  !name.data.isEmpty &&
  !hasSubChars ['.', '.'] name.data &&
  !name.data.contains '/' &&
  !name.data.contains '\\'

/-- Split a credential line at its first `':'` into
(`line.substr(0, pos)`, `line.substr(pos + 1)`).  `u` holds the characters
before the colon in reverse; a line with no colon yields `none` (the loop
skips it). -/
def credAux (u : List Char) : List Char → Option (String × String)
  | [] => none
  | c :: cs =>
    if c == ':' then some (String.mk u.reverse, String.mk cs)
    else credAux (c :: u) cs

/-- Embedding of `check_auth`: scan the credential lines in order and accept
exactly when some line parses to the given user and password.  (An unopenable
`users.txt` returns `false`, the same outcome as an empty store, so the store
is modelled directly as its list of lines.) -/
def check_auth (store : List String) (user pass : String) : Bool :=
  match store with
  | [] => false
  | line :: rest =>
    match credAux [] line.data with
    | none => check_auth rest user pass
    | some (u, p) =>
      if u == user && p == pass then true else check_auth rest user pass

/-- Modelled from the claim's words, for comparison with `check_auth`: a
lookup keyed by username alone, in which the first line whose username field
matches decides the outcome. -/
def check_auth_spec (store : List String) (user pass : String) : Bool :=
  match store with
  | [] => false
  | line :: rest =>
    match credAux [] line.data with
    | none => check_auth_spec rest user pass
    | some (u, p) =>
      if u == user then p == pass else check_auth_spec rest user pass

/-- Directory entries the `readdir` loop of `list_files` reports (everything
except `"."`, `".."` and `"uploads"`). -/
def goodEntry (n : String) : Bool := !(n == "." || n == ".." || n == "uploads")

/-- The string built by the `readdir` loop of `list_files`: each reported
entry contributes `entry ++ "\n"`. -/
def list_body : List String → String
  | [] => ""
  | n :: rest =>
    if n == "." || n == ".." || n == "uploads" then list_body rest
    else n ++ "\n" ++ list_body rest

/-- The filesystem state the server session reads: the raw `readdir` entries
of `server_files` (`none` when `opendir` fails), and for each bare filename
the contents of `server_files/<name>` when that path is an openable regular
file (`none` otherwise). -/
structure FS where
  rootEntries : Option (List String)
  rootFiles : String → Option (List Nat)

/-- Embedding of `list_files()`. -/
def list_files (fs : FS) : String :=
  match fs.rootEntries with
  | none => "ERR: cannot open server_files\n"
  | some es => list_body es

/-- One receive unit on the demultiplexed inbound stream: a control frame
(delivered by `recv_line`) or the raw bytes of one bulk transfer (consumed by
`recv_file_encrypted`). -/
inductive InEv where
  | frame (s : String)
  | bulk (b : List Nat)
deriving DecidableEq

/-- One send unit on the outbound stream: a control frame (`send_line`) or
the raw bytes of one bulk transfer (`send_file_encrypted`). -/
inductive OutEv where
  | frame (s : String)
  | bulk (b : List Nat)
deriving DecidableEq

/-- A filesystem access the session performs on behalf of a command. -/
inductive FsOp where
  | openDir (path : String)
  | openRead (path : String)
  | openWrite (path : String)
deriving DecidableEq

/-- The effect of dispatching one command frame, before the loop continues:
`simple` replies and stays in the loop, `halt` replies and leaves it (QUIT),
`put` replies `OK` and then runs the bulk receiver into `path`. -/
inductive CmdStep where
  | simple (outs : List OutEv) (ops : List FsOp)
  | halt (outs : List OutEv) (ops : List FsOp)
  | put (path : String)
deriving DecidableEq

/-- Embedding of the dispatch performed on one received command frame inside
the command loop of `handle_client`: split off the first token and compare it
against `LIST`, `GET`, `PUT`, `QUIT` in order; `GET` and `PUT` validate their
filename argument first, and `GET` probes `ROOT_DIR/<name>` with a test open
(the probe and the sender's own open are the two recorded reads). -/
def step_command (fs : FS) (line : String) : CmdStep :=
  let cmd := tok line 0
  if cmd == "LIST" then
    CmdStep.simple [OutEv.frame "OK", OutEv.frame (list_files fs)]
      [FsOp.openDir "server_files"]
  else if cmd == "GET" then
    let fname := tok line 1
    if !safe_filename fname then CmdStep.simple [OutEv.frame "ERR BadName"] []
    else
      match fs.rootFiles fname with
      | none =>
        CmdStep.simple [OutEv.frame "ERR NotFound"]
          [FsOp.openRead ("server_files/" ++ fname)]
      | some content =>
        CmdStep.simple [OutEv.frame "OK", OutEv.bulk (send_file_stream content)]
          [FsOp.openRead ("server_files/" ++ fname),
           FsOp.openRead ("server_files/" ++ fname)]
  else if cmd == "PUT" then
    let fname := tok line 1
    if !safe_filename fname then CmdStep.simple [OutEv.frame "ERR BadName"] []
    else CmdStep.put ("server_files/uploads/" ++ fname)
  else if cmd == "QUIT" then CmdStep.halt [OutEv.frame "BYE"] []
  else CmdStep.simple [OutEv.frame "ERR UnknownCmd"] []

/-- Embedding of the authenticated command loop of `handle_client`: each
iteration receives one frame, dispatches on it via `step_command`, and
replies; a `put` directive then consumes the bulk transfer that follows on
the same stream (`OK` is sent before the receive; the upload file is opened
only once the 8-byte header arrived; a failed receive breaks the loop).
Returns the outbound events and the filesystem accesses, in order.  A failed
`recv_line` (exhausted input, or raw bulk bytes where a frame header is
expected) exits the loop silently. -/
def command_loop (fs : FS) : List InEv → List OutEv × List FsOp
  | [] => ([], [])
  | InEv.bulk _ :: _ => ([], [])
  | InEv.frame line :: rest =>
    match step_command fs line with
    | CmdStep.simple outs ops =>
      let r := command_loop fs rest
      (outs ++ r.1, ops ++ r.2)
    | CmdStep.halt outs ops => (outs, ops)
    | CmdStep.put path =>
      match rest with
      | InEv.bulk b :: rest2 =>
        if b.length < 8 then ([OutEv.frame "OK"], [])
        else if (recv_file_stream b).1 then
          let r := command_loop fs rest2
          (OutEv.frame "OK" :: r.1, FsOp.openWrite path :: r.2)
        else ([OutEv.frame "OK"], [FsOp.openWrite path])
      | _ => ([OutEv.frame "OK"], [])

/-- Does the first frame pass the AUTH gate?  Mirrors the server's test in
order: keyword `AUTH`, non-empty user token, non-empty password token, and
`check_auth` against the credential store. -/
def auth_line_ok (store : List String) (line : String) : Bool :=
  tok line 0 == "AUTH" &&
  !(tok line 1).data.isEmpty &&
  !(tok line 2).data.isEmpty &&
  check_auth store (tok line 1) (tok line 2)

/-- Embedding of `handle_client`: exactly one AUTH attempt, decided on the
first frame (`AUTH_FAIL` and immediate close on failure — the result does not
depend on later events), then the command loop on success. -/
def handle_client (fs : FS) (store : List String) : List InEv → List OutEv × List FsOp
  | [] => ([], [])
  | InEv.bulk _ :: _ => ([], [])
  | InEv.frame line :: rest =>
    if auth_line_ok store line then
      let r := command_loop fs rest
      (OutEv.frame "AUTH_OK" :: r.1, r.2)
    else ([OutEv.frame "AUTH_FAIL"], [])

/-- A small concrete filesystem used to instantiate the session theorems. -/
def fsW : FS where
  rootEntries := some [".", "..", "uploads", "a.txt", "b.bin"]
  rootFiles := fun n => if n == "a.txt" then some [1, 2, 3] else none

/-! ### The XOR transform -/

theorem xor_xor_key (b : Nat) : (b ^^^ XOR_KEY) ^^^ XOR_KEY = b := by
  rw [Nat.xor_assoc, Nat.xor_self, Nat.xor_zero]

theorem xformBytes_xformBytes (l : List Nat) : xformBytes (xformBytes l) = l := by
  simp [xformBytes, List.map_map, Function.comp_def, xor_xor_key]

theorem length_xformBytes (l : List Nat) : (xformBytes l).length = l.length := by
  simp [xformBytes]

theorem xformBytes_append (a b : List Nat) :
    xformBytes (a ++ b) = xformBytes a ++ xformBytes b := by
  simp [xformBytes]

theorem xor_in_place_full : ∀ (l : List Nat) (n : Nat), n = l.length →
    xor_in_place l n = xformBytes l := by
  intro l
  induction l with
  | nil => intro n hn; subst hn; rfl
  | cons b rest ih =>
    intro n hn
    subst hn
    simp only [List.length_cons, xor_in_place, xformBytes, List.map_cons]
    rw [← xformBytes, ih rest.length rfl]

theorem xor_in_place_xor_in_place (buf : List Nat) (n : Nat) :
    xor_in_place (xor_in_place buf n) n = buf := by
  induction buf generalizing n with
  | nil => cases n <;> rfl
  | cons b rest ih =>
    cases n with
    | zero => rfl
    | succ m => simp [xor_in_place, xor_xor_key, ih]

/-! ### Framing: headers and round trips -/

theorem decodeBE_be32 (n : Nat) (h : n < 2 ^ 32) : decodeBE (be32 n) = n := by
  simp [decodeBE, be32, List.foldl]
  omega

theorem decodeBE_be64 (n : Nat) (h : n < 2 ^ 64) : decodeBE (be64 n) = n := by
  simp [decodeBE, be64, List.foldl]
  omega

theorem recv_line_exact (hdr pay rest : List Nat) (hh : hdr.length = 4)
    (hd : decodeBE hdr = pay.length) :
    recv_line (hdr ++ (pay ++ rest)) = some (pay, rest) := by
  have t4 : (hdr ++ (pay ++ rest)).take 4 = hdr := by
    rw [← hh]; exact List.take_left _ _
  have d4 : (hdr ++ (pay ++ rest)).drop 4 = pay ++ rest := by
    rw [← hh]; exact List.drop_left _ _
  have l1 : (hdr ++ (pay ++ rest)).length = 4 + (pay.length + rest.length) := by
    simp [hh]
  unfold recv_line
  rw [if_neg (by omega)]
  simp only [t4, d4, hd]
  rw [if_neg (by simp)]
  simp [List.take_left, List.drop_left]

theorem recv_line_send_line (s rest : List Nat) (h : s.length < 2 ^ 32) :
    recv_line (send_line s ++ rest) = some (s, rest) := by
  rw [send_line, List.append_assoc]
  exact recv_line_exact _ s rest rfl
    (by rw [decodeBE_be32 _ (Nat.mod_lt _ (by norm_num))]; exact Nat.mod_eq_of_lt h)

/-! ### The bulk transfer sub-protocol -/

theorem send_chunks_eq_xform : ∀ (chunks : List (List Nat)),
    (∀ c ∈ chunks, c ≠ []) → send_chunks chunks = xformBytes chunks.flatten := by
  intro chunks
  induction chunks with
  | nil => intro _; rfl
  | cons c cs ih =>
    intro h
    have hc : c.isEmpty = false := by
      simp [List.isEmpty_iff]
      exact h c (by simp)
    have hlen : c.length = c.length := rfl
    simp only [send_chunks, hc, Bool.false_eq_true, if_false, List.flatten_cons,
      xformBytes_append]
    rw [xor_in_place_full c c.length rfl, ih (fun d hd => h d (List.mem_cons_of_mem _ hd))]

theorem recv_bulk_loop_xform : ∀ (L : Nat) (content rest : List Nat), content.length = L →
    recv_bulk_loop L (xformBytes content ++ rest) = (true, content, rest) := by
  intro L
  induction L using Nat.strong_induction_on with
  | _ L ih =>
    intro content rest hL
    cases L with
    | zero =>
      have hc : content = [] := List.length_eq_zero.mp hL
      subst hc
      simp [recv_bulk_loop, xformBytes]
    | succ l =>
      rw [recv_bulk_loop]
      have hch1 : 1 ≤ min CHUNK (l + 1) := by simp [CHUNK]
      have hchle : min CHUNK (l + 1) ≤ l + 1 := min_le_right _ _
      have hlen : (xformBytes content ++ rest).length = (l + 1) + rest.length := by
        simp [length_xformBytes, hL]
      rw [if_neg (by omega)]
      have hxle : min CHUNK (l + 1) ≤ (xformBytes content).length := by
        rw [length_xformBytes, hL]; omega
      have htake : (xformBytes content ++ rest).take (min CHUNK (l + 1)) =
          xformBytes (content.take (min CHUNK (l + 1))) := by
        rw [List.take_append_of_le_length hxle, xformBytes, xformBytes, List.map_take]
      have hdrop : (xformBytes content ++ rest).drop (min CHUNK (l + 1)) =
          xformBytes (content.drop (min CHUNK (l + 1))) ++ rest := by
        rw [List.drop_append_of_le_length hxle, xformBytes, xformBytes, List.map_drop]
      have hrec := ih ((l + 1) - min CHUNK (l + 1)) (by omega)
        (content.drop (min CHUNK (l + 1))) rest (by simp [hL])
      rw [htake, hdrop, hrec]
      have hfull : xor_in_place (xformBytes (content.take (min CHUNK (l + 1))))
          (min CHUNK (l + 1)) = content.take (min CHUNK (l + 1)) := by
        rw [xor_in_place_full _ _ (by rw [length_xformBytes, List.length_take, hL]; omega),
          xformBytes_xformBytes]
      simp [hfull, List.take_append_drop]

theorem recv_file_stream_send (content : List Nat) (chunks : List (List Nat)) (rest : List Nat)
    (hjoin : chunks.flatten = content)
    (hne : ∀ c ∈ chunks, c ≠ [])
    (hlen : content.length < 2 ^ 64) :
    recv_file_stream (send_file_chunked chunks ++ rest) = (true, content, rest) := by
  subst hjoin
  rw [send_file_chunked, send_chunks_eq_xform chunks hne, List.append_assoc]
  have h8 : (be64 chunks.flatten.length).length = 8 := rfl
  have t8 : (be64 chunks.flatten.length ++ (xformBytes chunks.flatten ++ rest)).take 8 =
      be64 chunks.flatten.length := by
    rw [← h8]; exact List.take_left _ _
  have d8 : (be64 chunks.flatten.length ++ (xformBytes chunks.flatten ++ rest)).drop 8 =
      xformBytes chunks.flatten ++ rest := by
    rw [← h8]; exact List.drop_left _ _
  have l8 : (be64 chunks.flatten.length ++ (xformBytes chunks.flatten ++ rest)).length =
      8 + (chunks.flatten.length + rest.length) := by
    rw [List.length_append, List.length_append, h8, length_xformBytes]
  unfold recv_file_stream
  rw [if_neg (by omega), t8, d8, decodeBE_be64 _ hlen]
  exact recv_bulk_loop_xform _ _ _ rfl

theorem recv_bulk_loop_short : ∀ (L : Nat) (payload : List Nat), payload.length < L →
    recv_bulk_loop L payload =
      (false,
       xformBytes (payload.take (CHUNK * min (payload.length / CHUNK) (L / CHUNK))),
       payload.drop (CHUNK * min (payload.length / CHUNK) (L / CHUNK))) := by
  intro L
  induction L using Nat.strong_induction_on with
  | _ L ih =>
    intro payload hshort
    cases L with
    | zero => omega
    | succ l =>
      rw [recv_bulk_loop]
      by_cases hfail : payload.length < min CHUNK (l + 1)
      · rw [if_pos hfail]
        have hk : CHUNK * min (payload.length / CHUNK) ((l + 1) / CHUNK) = 0 := by
          simp only [CHUNK] at hfail ⊢
          omega
        rw [hk]
        simp [xformBytes]
      · rw [if_neg hfail]
        have hC : CHUNK < l + 1 := by
          simp only [CHUNK] at *
          omega
        have hchunk : min CHUNK (l + 1) = CHUNK := by omega
        rw [hchunk] at hfail ⊢
        have hrec := ih ((l + 1) - CHUNK) (by simp only [CHUNK]; omega)
          (payload.drop CHUNK) (by simp only [List.length_drop]; omega)
        rw [hrec]
        have hxt : xor_in_place (payload.take CHUNK) CHUNK =
            xformBytes (payload.take CHUNK) := by
          refine xor_in_place_full _ _ ?_
          rw [List.length_take]
          omega
        have hk : CHUNK * min (payload.length / CHUNK) ((l + 1) / CHUNK) =
            CHUNK + CHUNK * min ((payload.drop CHUNK).length / CHUNK)
              (((l + 1) - CHUNK) / CHUNK) := by
          rw [List.length_drop]
          simp only [CHUNK] at *
          omega
        rw [hk, List.take_add, xformBytes_append, List.drop_drop, hxt]

theorem recv_file_stream_short (N : Nat) (payload : List Nat)
    (hN : N < 2 ^ 64) (hshort : payload.length < N) :
    recv_file_stream (be64 N ++ payload) =
      (false,
       xformBytes (payload.take (CHUNK * min (payload.length / CHUNK) (N / CHUNK))),
       payload.drop (CHUNK * min (payload.length / CHUNK) (N / CHUNK))) := by
  have h8 : (be64 N).length = 8 := rfl
  have t8 : (be64 N ++ payload).take 8 = be64 N := by
    rw [← h8]; exact List.take_left _ _
  have d8 : (be64 N ++ payload).drop 8 = payload := by
    rw [← h8]; exact List.drop_left _ _
  have l8 : (be64 N ++ payload).length = 8 + payload.length := by
    rw [List.length_append, h8]
  unfold recv_file_stream
  rw [if_neg (by omega), t8, d8, decodeBE_be64 _ hN]
  exact recv_bulk_loop_short N payload hshort

/-! ### Command-loop unfolding -/

theorem command_loop_simple (fs : FS) (line : String) (rest : List InEv)
    (outs : List OutEv) (ops : List FsOp)
    (h : step_command fs line = CmdStep.simple outs ops) :
    command_loop fs (InEv.frame line :: rest) =
      (outs ++ (command_loop fs rest).1, ops ++ (command_loop fs rest).2) := by
  rw [command_loop, h]

/-! ### LIST payload helpers -/

theorem join_cons (s : String) (l : List String) :
    String.join (s :: l) = s ++ String.join l := by
  induction l generalizing s with
  | nil => simp [String.join]
  | cons t ts ih =>
    have h1 : String.join (s :: t :: ts) = String.join ((s ++ t) :: ts) := by
      simp [String.join, List.foldl]
    rw [h1, ih, ih, String.append_assoc]

theorem list_body_eq (es : List String) :
    list_body es = String.join ((es.filter goodEntry).map (fun n => n ++ "\n")) := by
  induction es with
  | nil => rfl
  | cons n rest ih =>
    by_cases h : (n == "." || n == ".." || n == "uploads") = true
    · have hg : goodEntry n = false := by simp [goodEntry, h]
      rw [list_body, if_pos h]
      simp only [List.filter_cons, hg, Bool.false_eq_true, if_false]
      exact ih
    · have hg : goodEntry n = true := by simp only [goodEntry, h, Bool.not_eq_true'] at *
      rw [list_body, if_neg h]
      simp only [List.filter_cons, hg, if_true, List.map_cons, join_cons]
      rw [ih]

/-! ### Claim theorems -/

/-- C3: the byte transform is self-inverse — for every buffer and every count
`n` not exceeding the buffer's length, applying `xor_in_place` twice yields
the original buffer. -/
theorem xor_transform_self_inverse (buf : List Nat) (n : Nat) (_h : n ≤ buf.length) :
    xor_in_place (xor_in_place buf n) n = buf :=
  xor_in_place_xor_in_place buf n

theorem xor_transform_self_inverse_witness :
    2 ≤ ([1, 2, 3] : List Nat).length ∧
      xor_in_place (xor_in_place [1, 2, 3] 2) 2 = [1, 2, 3] :=
  ⟨by decide, xor_transform_self_inverse [1, 2, 3] 2 (by decide)⟩

/-- C1: bulk-transfer round-trip — for every content (including the empty
one), every way the `ifstream` delivers its bytes as chunks of at most 64 KiB,
and every trailing stream, `recv_file_encrypted` reproduces exactly the
original bytes from what `send_file_encrypted` put on the wire, consuming
exactly the transfer's bytes. -/
theorem bulk_transfer_roundtrip (content : List Nat) (chunks : List (List Nat))
    (rest : List Nat) (hjoin : chunks.flatten = content)
    (hchunks : ∀ c ∈ chunks, c ≠ [] ∧ c.length ≤ CHUNK)
    (hlen : content.length < 2 ^ 64) :
    recv_file_stream (send_file_chunked chunks ++ rest) = (true, content, rest) :=
  recv_file_stream_send content chunks rest hjoin (fun c hc => (hchunks c hc).1) hlen

theorem bulk_transfer_roundtrip_witness :
    ([[1], [2, 3]] : List (List Nat)).flatten = [1, 2, 3] ∧
      recv_file_stream (send_file_chunked [[1], [2, 3]] ++ [4]) = (true, [1, 2, 3], [4]) ∧
      recv_file_stream (send_file_chunked [] ++ []) = (true, [], []) :=
  ⟨by decide,
   bulk_transfer_roundtrip [1, 2, 3] [[1], [2, 3]] [4] (by decide) (by decide) (by decide),
   bulk_transfer_roundtrip [] [] [] (by decide) (by decide) (by decide)⟩

/-- C2 counterexample: a frame of `2^32` bytes does not round-trip —
`send_line` truncates the length header to `0`, so `recv_line` returns the
empty frame instead of the original bytes. -/
theorem frame_roundtrip_counterexample :
    Option.map Prod.fst (recv_line (send_line (List.replicate (2 ^ 32) 0))) = some [] ∧
      (List.replicate (2 ^ 32) (0 : Nat)) ≠ [] := by
  constructor
  · have hlen : (List.replicate (2 ^ 32) (0 : Nat)).length = 2 ^ 32 :=
      List.length_replicate _ _
    have hr : recv_line (send_line (List.replicate (2 ^ 32) 0)) =
        some ([], List.replicate (2 ^ 32) 0) := by
      rw [send_line, hlen, Nat.mod_self]
      have h := recv_line_exact (be32 0) [] (List.replicate (2 ^ 32) 0) rfl (by decide)
      rw [List.nil_append] at h
      exact h
    rw [hr]
    rfl
  · intro hcon
    have hlen := congrArg List.length hcon
    rw [List.length_replicate, List.length_nil] at hlen
    exact absurd hlen (by norm_num)

/-- C2 (amended): framing round-trip — for every byte sequence `b` SHORTER
THAN `2^32` bytes (including the empty sequence) and every trailing stream,
`recv_line` returns exactly `b` from what `send_line` wrote, reading no
payload byte for a zero-length frame. -/
theorem frame_roundtrip_amended (b rest : List Nat) (h : b.length < 2 ^ 32) :
    recv_line (send_line b ++ rest) = some (b, rest) :=
  recv_line_send_line b rest h

theorem frame_roundtrip_amended_witness :
    ([] : List Nat).length < 2 ^ 32 ∧
      recv_line (send_line [] ++ []) = some ([], []) ∧
      recv_line (send_line [7, 8] ++ [9]) = some ([7, 8], [9]) :=
  ⟨by decide, frame_roundtrip_amended [] [] (by decide),
   frame_roundtrip_amended [7, 8] [9] (by decide)⟩

/-- C10: `send_line` writes `s.size() mod 2^32` as the 4-byte big-endian
length header while still writing all payload bytes, so the framing
round-trip is guaranteed exactly under the precondition that the frame is
shorter than `2^32` bytes. -/
theorem send_line_length_truncation (s : List Nat) :
    decodeBE ((send_line s).take 4) = s.length % 2 ^ 32 ∧
      (send_line s).drop 4 = s ∧
      (s.length < 2 ^ 32 → ∀ rest, recv_line (send_line s ++ rest) = some (s, rest)) := by
  refine ⟨?_, ?_, fun h rest => recv_line_send_line s rest h⟩
  · rw [send_line]
    have h4 : (be32 (s.length % 2 ^ 32)).length = 4 := rfl
    rw [← h4, List.take_left]
    exact decodeBE_be32 _ (Nat.mod_lt _ (by norm_num))
  · rw [send_line]
    have h4 : (be32 (s.length % 2 ^ 32)).length = 4 := rfl
    rw [← h4, List.drop_left]

theorem send_line_length_truncation_witness :
    decodeBE ((send_line [5, 6]).take 4) = ([5, 6] : List Nat).length % 2 ^ 32 ∧
      (send_line [5, 6]).drop 4 = [5, 6] ∧
      recv_line (send_line [5, 6] ++ []) = some ([5, 6], []) :=
  ⟨(send_line_length_truncation [5, 6]).1, (send_line_length_truncation [5, 6]).2.1,
   (send_line_length_truncation [5, 6]).2.2 (by decide) []⟩

/-- C8: when the stream closes before the declared `N` payload bytes arrive,
`recv_file_encrypted` returns failure, and every complete chunk already
decoded and written to the destination stays written — the destination holds
the decode of exactly the fully received protocol chunks, and the rest of the
stream is left where the failing read stopped. -/
theorem recv_failure_not_rolled_back (N : Nat) (payload : List Nat)
    (hN : N < 2 ^ 64) (hshort : payload.length < N) :
    recv_file_stream (be64 N ++ payload) =
      (false,
       xformBytes (payload.take (CHUNK * min (payload.length / CHUNK) (N / CHUNK))),
       payload.drop (CHUNK * min (payload.length / CHUNK) (N / CHUNK))) :=
  recv_file_stream_short N payload hN hshort

theorem recv_failure_not_rolled_back_witness :
    (3 : Nat) < 2 ^ 64 ∧ ([81, 82] : List Nat).length < 3 ∧
      recv_file_stream (be64 3 ++ [81, 82]) =
        (false,
         xformBytes (([81, 82] : List Nat).take
           (CHUNK * min (([81, 82] : List Nat).length / CHUNK) (3 / CHUNK))),
         ([81, 82] : List Nat).drop
           (CHUNK * min (([81, 82] : List Nat).length / CHUNK) (3 / CHUNK))) :=
  ⟨by decide, by decide, recv_failure_not_rolled_back 3 [81, 82] (by decide) (by decide)⟩

/-- C4 counterexample: credential lookup is not keyed by username with first
match winning — against the store `["alice:a", "alice:b"]` the pair
`("alice", "b")` authenticates even though the first line with username
`alice` carries the password `a`. -/
theorem check_auth_first_match_counterexample :
    ¬ (check_auth ["alice:a", "alice:b"] "alice" "b" = true ↔
        check_auth_spec ["alice:a", "alice:b"] "alice" "b" = true) := by
  decide

/-- C4 (amended): `check_auth` succeeds iff SOME line of the store splits at
its first colon into exactly the given username and password — the lookup is
keyed by the (username, password) pair, so with duplicate usernames a later
line whose password matches also authenticates. -/
theorem check_auth_pair_lookup (store : List String) (user pass : String) :
    check_auth store user pass = true ↔
      ∃ line ∈ store, credAux [] line.data = some (user, pass) := by
  induction store with
  | nil => simp [check_auth]
  | cons line rest ih =>
    rw [check_auth]
    cases hc : credAux [] line.data with
    | none =>
      rw [ih]
      constructor
      · rintro ⟨l, hl, hparse⟩
        exact ⟨l, List.mem_cons_of_mem _ hl, hparse⟩
      · rintro ⟨l, hl, hparse⟩
        rcases List.mem_cons.mp hl with rfl | hl'
        · rw [hc] at hparse
          cases hparse
        · exact ⟨l, hl', hparse⟩
    | some up =>
      obtain ⟨u, p⟩ := up
      dsimp only
      by_cases he : u = user ∧ p = pass
      · obtain ⟨rfl, rfl⟩ := he
        rw [if_pos (by rw [Bool.and_eq_true, beq_iff_eq, beq_iff_eq]; exact ⟨rfl, rfl⟩)]
        constructor
        · intro _
          exact ⟨line, List.mem_cons_self _ _, hc⟩
        · intro _
          rfl
      · have hb : ¬ ((u == user && p == pass) = true) := by
          rw [Bool.and_eq_true, beq_iff_eq, beq_iff_eq]
          exact he
        rw [if_neg hb, ih]
        constructor
        · rintro ⟨l, hl, hparse⟩
          exact ⟨l, List.mem_cons_of_mem _ hl, hparse⟩
        · rintro ⟨l, hl, hparse⟩
          rcases List.mem_cons.mp hl with rfl | hl'
          · rw [hc] at hparse
            injection hparse with hpair
            injection hpair with h1 h2
            exact absurd ⟨h1, h2⟩ he
          · exact ⟨l, hl', hparse⟩

/-- C5: exactly one authentication attempt per connection — if the first
frame is not `AUTH <user> <pass>` with non-empty user and password passing
`check_auth`, the server answers with the single frame `AUTH_FAIL` and closes
without reading any further event (the result is independent of `rest`);
otherwise it answers `AUTH_OK` and enters the command loop. -/
theorem auth_single_attempt (fs : FS) (store : List String) (line : String)
    (rest : List InEv) :
    (auth_line_ok store line = false →
      handle_client fs store (InEv.frame line :: rest) = ([OutEv.frame "AUTH_FAIL"], [])) ∧
    (auth_line_ok store line = true →
      handle_client fs store (InEv.frame line :: rest) =
        (OutEv.frame "AUTH_OK" :: (command_loop fs rest).1, (command_loop fs rest).2)) ∧
    (auth_line_ok store line = true ↔
      (tok line 0 = "AUTH" ∧ (tok line 1).data ≠ [] ∧ (tok line 2).data ≠ [] ∧
        check_auth store (tok line 1) (tok line 2) = true)) := by
  refine ⟨?_, ?_, ?_⟩
  · intro h
    simp [handle_client, h]
  · intro h
    simp [handle_client, h]
  · simp [auth_line_ok, List.isEmpty_iff, and_assoc]

theorem auth_single_attempt_witness :
    auth_line_ok ["alice:secret"] "AUTH alice wrong" = false ∧
      handle_client fsW ["alice:secret"]
          [InEv.frame "AUTH alice wrong", InEv.frame "LIST"] =
        ([OutEv.frame "AUTH_FAIL"], []) :=
  ⟨by decide,
   (auth_single_attempt fsW ["alice:secret"] "AUTH alice wrong" [InEv.frame "LIST"]).1
     (by decide)⟩

/-- C6: for every `GET` or `PUT` whose filename argument is empty or contains
`".."`, `'/'` or `'\'`, the server answers `ERR BadName`, performs no
filesystem access for that name (the session's accesses are exactly those of
the continuation), and stays in the command loop, processing the subsequent
events. -/
theorem bad_filename_rejected (fs : FS) (line : String) (rest : List InEv)
    (hcmd : tok line 0 = "GET" ∨ tok line 0 = "PUT")
    (hbad : (tok line 1).data = [] ∨
      hasSubChars ['.', '.'] (tok line 1).data = true ∨
      '/' ∈ (tok line 1).data ∨
      '\\' ∈ (tok line 1).data) :
    command_loop fs (InEv.frame line :: rest) =
      (OutEv.frame "ERR BadName" :: (command_loop fs rest).1, (command_loop fs rest).2) := by
  have hsf : safe_filename (tok line 1) = false := by
    rcases hbad with h | h | h | h <;> simp [safe_filename, h]
  have hstep : step_command fs line = CmdStep.simple [OutEv.frame "ERR BadName"] [] := by
    rcases hcmd with h | h <;> simp [step_command, h, hsf]
  rw [command_loop_simple fs line rest _ _ hstep]
  simp

theorem bad_filename_rejected_witness :
    tok "GET ../../etc/passwd" 0 = "GET" ∧
      hasSubChars ['.', '.'] (tok "GET ../../etc/passwd" 1).data = true ∧
      command_loop fsW [InEv.frame "GET ../../etc/passwd", InEv.frame "QUIT"] =
        (OutEv.frame "ERR BadName" :: (command_loop fsW [InEv.frame "QUIT"]).1,
         (command_loop fsW [InEv.frame "QUIT"]).2) :=
  ⟨by decide, by decide,
   bad_filename_rejected fsW "GET ../../etc/passwd" [InEv.frame "QUIT"]
     (Or.inl (by decide)) (Or.inr (Or.inl (by decide)))⟩

/-- C7: the server answers a LIST command with `OK` followed by exactly one
data frame; when the root directory is readable the data frame is the
concatenation of `entry ++ "\n"` over exactly the entries that are none of
`"."`, `".."`, `"uploads"`; when the root cannot be opened the `OK` frame is
still sent and the data frame is the text `"ERR: cannot open server_files\n"`. -/
theorem list_response_shape (fs : FS) (line : String) (rest : List InEv)
    (hcmd : tok line 0 = "LIST") :
    command_loop fs (InEv.frame line :: rest) =
      (OutEv.frame "OK" :: OutEv.frame (list_files fs) :: (command_loop fs rest).1,
       FsOp.openDir "server_files" :: (command_loop fs rest).2) ∧
    (∀ es, fs.rootEntries = some es →
      list_files fs = String.join ((es.filter goodEntry).map (fun n => n ++ "\n")) ∧
      (∀ n, n ∈ es.filter goodEntry ↔
        n ∈ es ∧ n ≠ "." ∧ n ≠ ".." ∧ n ≠ "uploads")) ∧
    (fs.rootEntries = none → list_files fs = "ERR: cannot open server_files\n") := by
  refine ⟨?_, ?_, ?_⟩
  · have hstep : step_command fs line =
        CmdStep.simple [OutEv.frame "OK", OutEv.frame (list_files fs)]
          [FsOp.openDir "server_files"] := by
      simp [step_command, hcmd]
    rw [command_loop_simple fs line rest _ _ hstep]
    simp
  · intro es hes
    refine ⟨?_, ?_⟩
    · simp [list_files, hes, list_body_eq]
    · intro n
      rw [List.mem_filter]
      simp [goodEntry, and_assoc]
  · intro h
    simp [list_files, h]

theorem list_response_shape_witness :
    tok "LIST" 0 = "LIST" ∧
      command_loop fsW [InEv.frame "LIST"] =
        (OutEv.frame "OK" :: OutEv.frame (list_files fsW) :: (command_loop fsW []).1,
         FsOp.openDir "server_files" :: (command_loop fsW []).2) ∧
      list_files fsW = "a.txt\nb.bin\n" :=
  ⟨by decide, (list_response_shape fsW "LIST" [] (by decide)).1, by decide⟩

/-- C9: for every `GET` with a safe filename — if the resolved path is not an
openable regular file the server answers `ERR NotFound` and stays in the
command loop; otherwise it answers `OK` and runs the bulk sender, whose
8-byte header declares the file's current size. -/
theorem get_dispatch_on_existence (fs : FS) (line : String) (rest : List InEv)
    (hcmd : tok line 0 = "GET") (hsafe : safe_filename (tok line 1) = true) :
    (fs.rootFiles (tok line 1) = none →
      command_loop fs (InEv.frame line :: rest) =
        (OutEv.frame "ERR NotFound" :: (command_loop fs rest).1,
         FsOp.openRead ("server_files/" ++ tok line 1) :: (command_loop fs rest).2)) ∧
    (∀ content, fs.rootFiles (tok line 1) = some content →
      command_loop fs (InEv.frame line :: rest) =
        (OutEv.frame "OK" :: OutEv.bulk (send_file_stream content) :: (command_loop fs rest).1,
         FsOp.openRead ("server_files/" ++ tok line 1) ::
           FsOp.openRead ("server_files/" ++ tok line 1) :: (command_loop fs rest).2) ∧
      (send_file_stream content).take 8 = be64 content.length) := by
  constructor
  · intro h
    have hstep : step_command fs line =
        CmdStep.simple [OutEv.frame "ERR NotFound"]
          [FsOp.openRead ("server_files/" ++ tok line 1)] := by
      simp [step_command, hcmd, hsafe, h]
    rw [command_loop_simple fs line rest _ _ hstep]
    simp
  · intro content h
    refine ⟨?_, ?_⟩
    · have hstep : step_command fs line =
          CmdStep.simple [OutEv.frame "OK", OutEv.bulk (send_file_stream content)]
            [FsOp.openRead ("server_files/" ++ tok line 1),
             FsOp.openRead ("server_files/" ++ tok line 1)] := by
        simp [step_command, hcmd, hsafe, h]
      rw [command_loop_simple fs line rest _ _ hstep]
      simp
    · rw [send_file_stream]
      have h8 : (be64 content.length).length = 8 := rfl
      rw [← h8, List.take_left]

theorem get_dispatch_on_existence_witness :
    safe_filename (tok "GET a.txt" 1) = true ∧
      command_loop fsW [InEv.frame "GET a.txt"] =
        (OutEv.frame "OK" :: OutEv.bulk (send_file_stream [1, 2, 3]) ::
           (command_loop fsW []).1,
         FsOp.openRead ("server_files/" ++ tok "GET a.txt" 1) ::
           FsOp.openRead ("server_files/" ++ tok "GET a.txt" 1) ::
           (command_loop fsW []).2) :=
  ⟨by decide,
   ((get_dispatch_on_existence fsW "GET a.txt" [] (by decide) (by decide)).2
     [1, 2, 3] (by decide)).1⟩

end NetFS
